import Mathlib

/-!
# Verification of the chain-of-product envelope library

A shallow embedding of `chainofproduct/library.py` and `chainofproduct/crypto.py`.

Modelling conventions:

* Python `dict` documents are `Json` values; a Python dict is a `Json.obj`
  over an association list (insertion order = list order, keys unique in any
  dict actually built by Python).
* Byte strings are the symbolic type `Bytes`: the cryptographic primitives
  (SHA-256, Ed25519, X25519+HKDF+AESGCM key wrap, AES-256-GCM) are embedded
  as injective constructors, which is the standard idealized model — equal
  outputs come from equal inputs, decryption with a mismatched key or AAD
  fails, signatures verify exactly under the matching public key.
* Randomness (`os.urandom`, `uuid.uuid4`, fresh nonces and ephemeral keys) is
  threaded explicitly: every operation receives an entropy path `ρ : List Nat`
  and each internal draw extends the path; distinct paths give distinct draws
  (`Bytes.rand (encL path)` with `encL` injective).
* Wall-clock timestamps (`datetime.now`) are threaded as a `now : String`
  parameter; they are informational only.
* Fallible Python code (exceptions) is embedded with `Except Err`; the `Err`
  constructors carry the semantic error names of the spec's taxonomy, with the
  concrete Python exception noted in comments.
-/

/-- The JSON data model: Python dicts/lists/str/int/bool/None as handled by
`json.dumps`/`json.loads`. Numbers are modelled as integers (the documents in
scope carry integral amounts). -/
inductive Json where
  | null
  | bool (b : Bool)
  | num (n : Int)
  | str (s : String)
  | arr (xs : List Json)
  | obj (fields : List (String × Json))

namespace Json

mutual
def beq : Json → Json → Bool
  | .null, .null => true
  | .bool a, .bool b => a == b
  | .num a, .num b => a == b
  | .str a, .str b => a == b
  | .arr xs, .arr ys => beqList xs ys
  | .obj fs, .obj gs => beqFields fs gs
  | _, _ => false
termination_by structural a => a
def beqList : List Json → List Json → Bool
  | [], [] => true
  | x :: xs, y :: ys => beq x y && beqList xs ys
  | _, _ => false
termination_by structural l => l
def beqFields : List (String × Json) → List (String × Json) → Bool
  | [], [] => true
  | (k, v) :: fs, (l, w) :: gs => k == l && beq v w && beqFields fs gs
  | _, _ => false
termination_by structural l => l
end

mutual
theorem beq_refl : ∀ a : Json, beq a a = true
  | .null => rfl
  | .bool b => by simp [beq]
  | .num n => by simp [beq]
  | .str s => by simp [beq]
  | .arr xs => by simp [beq, beqList_refl xs]
  | .obj fs => by simp [beq, beqFields_refl fs]
theorem beqList_refl : ∀ xs : List Json, beqList xs xs = true
  | [] => rfl
  | x :: xs => by simp [beqList, beq_refl x, beqList_refl xs]
theorem beqFields_refl : ∀ fs : List (String × Json), beqFields fs fs = true
  | [] => rfl
  | (k, v) :: fs => by simp [beqFields, beq_refl v, beqFields_refl fs]
end

mutual
theorem eq_of_beq : ∀ a b : Json, beq a b = true → a = b
  | .null, b => by cases b <;> simp [beq]
  | .bool x, b => by cases b <;> simp [beq]
  | .num x, b => by cases b <;> simp [beq]
  | .str x, b => by cases b <;> simp [beq]
  | .arr xs, b => by
      cases b <;> simp [beq]
      exact fun h => eqList_of_beq xs _ h
  | .obj fs, b => by
      cases b <;> simp [beq]
      exact fun h => eqFields_of_beq fs _ h
theorem eqList_of_beq : ∀ xs ys : List Json, beqList xs ys = true → xs = ys
  | [], ys => by cases ys <;> simp [beqList]
  | x :: xs, ys => by
      cases ys with
      | nil => simp [beqList]
      | cons y ys =>
          simp only [beqList, Bool.and_eq_true]
          rintro ⟨h1, h2⟩
          rw [eq_of_beq x y h1, eqList_of_beq xs ys h2]
theorem eqFields_of_beq : ∀ fs gs : List (String × Json), beqFields fs gs = true → fs = gs
  | [], gs => by cases gs <;> simp [beqFields]
  | (k, v) :: fs, gs => by
      cases gs with
      | nil => simp [beqFields]
      | cons g gs =>
          obtain ⟨l, w⟩ := g
          simp only [beqFields, Bool.and_eq_true, beq_iff_eq]
          rintro ⟨⟨h0, h1⟩, h2⟩
          rw [h0, eq_of_beq v w h1, eqFields_of_beq fs gs h2]
end

instance : DecidableEq Json := fun a b =>
  if h : beq a b = true then isTrue (eq_of_beq a b h)
  else isFalse (fun he => h (he ▸ beq_refl a))

end Json

deriving instance DecidableEq for Except

/-- Association-list lookup with Python `dict.__getitem__` / `dict.get`
semantics (keys unique in lists built by the embedding, first match wins). -/
def dictGet (l : List (String × α)) (k : String) : Option α :=
  match l with
  | [] => none
  | (k₀, v) :: rest => if k₀ = k then some v else dictGet rest k

/-- Python `k in d`. -/
def dictHas (l : List (String × α)) (k : String) : Bool :=
  (dictGet l k).isSome

/-- Python `d[k] = v`: replace in place when the key exists, append otherwise. -/
def dictInsert (l : List (String × α)) (k : String) (v : α) : List (String × α) :=
  match l with
  | [] => [(k, v)]
  | (k₀, v₀) :: rest =>
      if k₀ = k then (k₀, v) :: rest else (k₀, v₀) :: dictInsert rest k v

/-- Python `d.update(extra)` as a map: overridden keys take the new value. -/
def dictUpdate (base extra : List (String × α)) : List (String × α) :=
  extra.foldl (fun acc p => dictInsert acc p.1 p.2) base

/-- Lexicographic string order on the underlying character lists (the order
`json.dumps(sort_keys=True)` sorts keys by). -/
def strLt (a b : String) : Bool := decide (a.data < b.data)

/-- Insert a key/value pair into a key-sorted field list (`json.dumps`
`sort_keys=True` order: lexicographic on the key string). -/
def insField (p : String × Json) : List (String × Json) → List (String × Json)
  | [] => [p]
  | q :: qs => if strLt p.1 q.1 then p :: q :: qs else q :: insField p qs

/-- Sort an object's fields by key, as `json.dumps(sort_keys=True)` does. -/
def sortFields : List (String × Json) → List (String × Json)
  | [] => []
  | p :: ps => insField p (sortFields ps)

mutual
/-- The JSON value denoted by the canonical serialization
`json.dumps(obj, sort_keys=True, separators=(",", ":"))`: objects key-sorted
at every level. Serialization is injective on canonical values, so the byte
string is represented by the canonical value itself. -/
def canon : Json → Json
  | .null => .null
  | .bool b => .bool b
  | .num n => .num n
  | .str s => .str s
  | .arr xs => .arr (canonList xs)
  | .obj fs => .obj (sortFields (canonFields fs))
termination_by structural j => j
def canonList : List Json → List Json
  | [] => []
  | x :: xs => canon x :: canonList xs
termination_by structural l => l
def canonFields : List (String × Json) → List (String × Json)
  | [] => []
  | (k, v) :: fs => (k, canon v) :: canonFields fs
termination_by structural l => l
end

/-- A value already in canonical form (key-sorted at every level): the
"canonical JSON model" of the spec, i.e. the image of a Python dict whose
serialization round-trips to itself. -/
def IsCanonical (j : Json) : Prop := canon j = j

instance (j : Json) : Decidable (IsCanonical j) := by
  unfold IsCanonical
  infer_instance

/-- Python's single-quote used by `repr`. -/
def pyQuote : String := String.mk [Char.ofNat 39]

mutual
/-- Python `repr()` on a JSON-model value (modelled up to Python's
quote-escaping rules, which the documents in scope do not exercise). -/
def pyRepr : Json → String
  | .null => "None"
  | .bool true => "True"
  | .bool false => "False"
  | .num n => toString n
  | .str s => pyQuote ++ s ++ pyQuote
  | .arr xs => "[" ++ String.intercalate ", " (pyReprList xs) ++ "]"
  | .obj fs => "\x7b" ++ String.intercalate ", " (pyReprFields fs) ++ "\x7d"
termination_by structural j => j
def pyReprList : List Json → List String
  | [] => []
  | x :: xs => pyRepr x :: pyReprList xs
termination_by structural l => l
def pyReprFields : List (String × Json) → List String
  | [] => []
  | (k, v) :: fs => (pyQuote ++ k ++ pyQuote ++ ": " ++ pyRepr v) :: pyReprFields fs
termination_by structural l => l
end

/-- Python `str()` on a JSON-model value: a string is itself, anything else
is its `repr`. -/
def pyStr : Json → String
  | .str s => s
  | j => pyRepr j

mutual
/-- Symbolic byte strings. Each cryptographic primitive of `crypto.py` is an
injective constructor: this is the idealized (Dolev-Yao style) model in which
hashes and base64 are injective, AEAD decryption succeeds exactly on the
encrypting key/nonce/AAD, and an Ed25519 signature verifies exactly under the
matching public key. -/
inductive Bytes where
  /-- `json.dumps(obj, sort_keys=True, separators=(",",":")).encode("utf-8")`
  of a document; the argument is kept in canonical form by `_canonical_bytes`. -/
  | json (j : Json)
  /-- `_canonical_bytes` of a share-record dict (the record minus `sig_share`):
  positionally `id, tx_id, section, from_company, to_company, ek_to, timestamp,
  layer_hash`, each `none` when the key is absent. -/
  | recBytes (id tx sec fc tc : Option String) (ek : Option Wire)
      (ts : Option String) (lh : Option Wire)
  /-- `hashlib`-style SHA-256 digest (`crypto.hash_bytes`). -/
  | hash (b : Bytes)
  /-- A fresh draw from the OS CSPRNG (`os.urandom` / `uuid.uuid4`). -/
  | rand (n : Nat)
  /-- Ed25519 signature by the signing keypair `sid` over `msg`. -/
  | sig (sid : Nat) (msg : Bytes)
  /-- Ed25519 public/private PEMs of keypair `sid`. -/
  | sigPub (sid : Nat)
  | sigPriv (sid : Nat)
  /-- X25519 public/private PEMs of keypair `eid`. -/
  | encPub (eid : Nat)
  | encPriv (eid : Nat)
  /-- `crypto.wrap_key` blob: symmetric key `key` wrapped to the encryption
  keypair `eid`, with ephemeral-key/nonce randomness `r`. -/
  | wrapped (eid : Nat) (key : Bytes) (r : Nat)
  /-- AES-256-GCM ciphertext (without tag) under `key`, `nonce`, `aad`. -/
  | gcmCt (key : Bytes) (nonce : Bytes) (pt : Bytes) (aad : Option Bytes)
  /-- AES-256-GCM authentication tag for the same encryption. -/
  | gcmTag (key : Bytes) (nonce : Bytes) (pt : Bytes) (aad : Option Bytes)
/-- A string stored in an envelope/record where the code expects URL-safe
base64: either the encoding of some bytes (`b64`, decodable) or a string on
which `base64.urlsafe_b64decode` raises (`badStr`). -/
inductive Wire where
  | b64 (b : Bytes)
  | badStr (s : String)
end

namespace Bytes

mutual
def beqB : Bytes → Bytes → Bool
  | .json a, .json b => a == b
  | .recBytes i t s f c e ts l, .recBytes i₂ t₂ s₂ f₂ c₂ e₂ ts₂ l₂ =>
      i == i₂ && t == t₂ && s == s₂ && f == f₂ && c == c₂ && beqOW e e₂ &&
        ts == ts₂ && beqOW l l₂
  | .hash a, .hash b => beqB a b
  | .rand a, .rand b => a == b
  | .sig s a, .sig s₂ b => s == s₂ && beqB a b
  | .sigPub a, .sigPub b => a == b
  | .sigPriv a, .sigPriv b => a == b
  | .encPub a, .encPub b => a == b
  | .encPriv a, .encPriv b => a == b
  | .wrapped e k r, .wrapped e₂ k₂ r₂ => e == e₂ && beqB k k₂ && r == r₂
  | .gcmCt k n p a, .gcmCt k₂ n₂ p₂ a₂ =>
      beqB k k₂ && beqB n n₂ && beqB p p₂ && beqOB a a₂
  | .gcmTag k n p a, .gcmTag k₂ n₂ p₂ a₂ =>
      beqB k k₂ && beqB n n₂ && beqB p p₂ && beqOB a a₂
  | _, _ => false
termination_by structural a => a
def beqOB : Option Bytes → Option Bytes → Bool
  | none, none => true
  | some a, some b => beqB a b
  | _, _ => false
termination_by structural a => a
def beqW : Wire → Wire → Bool
  | .b64 a, .b64 b => beqB a b
  | .badStr a, .badStr b => a == b
  | _, _ => false
termination_by structural a => a
def beqOW : Option Wire → Option Wire → Bool
  | none, none => true
  | some a, some b => beqW a b
  | _, _ => false
termination_by structural a => a
end

set_option maxHeartbeats 1600000

mutual
theorem beqB_refl : ∀ a : Bytes, beqB a a = true
  | .json a => by simp [beqB]
  | .recBytes i t s f c e ts l => by simp [beqB, beqOW_refl]
  | .hash a => by simp [beqB, beqB_refl a]
  | .rand a => by simp [beqB]
  | .sig s a => by simp [beqB, beqB_refl a]
  | .sigPub a => by simp [beqB]
  | .sigPriv a => by simp [beqB]
  | .encPub a => by simp [beqB]
  | .encPriv a => by simp [beqB]
  | .wrapped e k r => by simp [beqB, beqB_refl k]
  | .gcmCt k n p a => by
      simp [beqB, beqB_refl k, beqB_refl n, beqB_refl p, beqOB_refl a]
  | .gcmTag k n p a => by
      simp [beqB, beqB_refl k, beqB_refl n, beqB_refl p, beqOB_refl a]
theorem beqOB_refl : ∀ a : Option Bytes, beqOB a a = true
  | none => by simp [beqOB]
  | some a => by simp [beqOB, beqB_refl a]
theorem beqW_refl : ∀ a : Wire, beqW a a = true
  | .b64 a => by simp [beqW, beqB_refl a]
  | .badStr a => by simp [beqW]
theorem beqOW_refl : ∀ a : Option Wire, beqOW a a = true
  | none => by simp [beqOW]
  | some a => by simp [beqOW, beqW_refl a]
end

mutual
theorem eqB_of_beq : ∀ a b : Bytes, beqB a b = true → a = b
  | .json a, b => by cases b <;> simp [beqB]
  | .recBytes i t s f c e ts l, b => by
      cases b <;> simp [beqB]
      rintro rfl rfl rfl rfl rfl he rfl hl
      exact ⟨rfl, rfl, rfl, rfl, rfl, eqOW_of_beq _ _ he, rfl, eqOW_of_beq _ _ hl⟩
  | .hash a, b => by
      cases b <;> simp [beqB]
      exact fun h => eqB_of_beq a _ h
  | .rand a, b => by cases b <;> simp [beqB]
  | .sig s a, b => by
      cases b <;> simp [beqB]
      rintro rfl h
      exact ⟨rfl, eqB_of_beq a _ h⟩
  | .sigPub a, b => by cases b <;> simp [beqB]
  | .sigPriv a, b => by cases b <;> simp [beqB]
  | .encPub a, b => by cases b <;> simp [beqB]
  | .encPriv a, b => by cases b <;> simp [beqB]
  | .wrapped e k r, b => by
      cases b <;> simp [beqB]
      rintro rfl h rfl
      exact ⟨rfl, eqB_of_beq k _ h, rfl⟩
  | .gcmCt k n p a, b => by
      cases b <;> simp [beqB]
      rintro hk hn hp ha
      exact ⟨eqB_of_beq k _ hk, eqB_of_beq n _ hn, eqB_of_beq p _ hp,
        eqOB_of_beq a _ ha⟩
  | .gcmTag k n p a, b => by
      cases b <;> simp [beqB]
      rintro hk hn hp ha
      exact ⟨eqB_of_beq k _ hk, eqB_of_beq n _ hn, eqB_of_beq p _ hp,
        eqOB_of_beq a _ ha⟩
theorem eqOB_of_beq : ∀ a b : Option Bytes, beqOB a b = true → a = b
  | none, b => by cases b <;> simp [beqOB]
  | some a, b => by
      cases b <;> simp [beqOB]
      exact fun h => eqB_of_beq a _ h
theorem eqW_of_beq : ∀ a b : Wire, beqW a b = true → a = b
  | .b64 a, b => by
      cases b <;> simp [beqW]
      exact fun h => eqB_of_beq a _ h
  | .badStr a, b => by cases b <;> simp [beqW]
theorem eqOW_of_beq : ∀ a b : Option Wire, beqOW a b = true → a = b
  | none, b => by cases b <;> simp [beqOW]
  | some a, b => by
      cases b <;> simp [beqOW]
      exact fun h => eqW_of_beq a _ h
end

end Bytes

instance : DecidableEq Bytes := fun a b =>
  if h : Bytes.beqB a b = true then isTrue (Bytes.eqB_of_beq a b h)
  else isFalse (fun he => h (he ▸ Bytes.beqB_refl a))

instance : DecidableEq Wire := fun a b =>
  if h : Bytes.beqW a b = true then isTrue (Bytes.eqW_of_beq a b h)
  else isFalse (fun he => h (he ▸ Bytes.beqW_refl a))

set_option maxHeartbeats 400000

/-- Injective encoding of an entropy path into a single draw index. -/
def encL : List Nat → Nat
  | [] => 0
  | a :: t => Nat.pair a (encL t) + 1

theorem encL_injective : Function.Injective encL := by
  intro l₁
  induction l₁ with
  | nil => intro l₂ h; cases l₂ <;> simp [encL] at h ⊢
  | cons a t ih =>
      intro l₂ h
      cases l₂ with
      | nil => simp [encL] at h
      | cons b u =>
          simp only [encL, Nat.add_right_cancel_iff] at h
          obtain ⟨h1, h2⟩ := Nat.pair_eq_pair.mp h
          rw [h1, ih h2]

/-- Fresh CSPRNG output drawn at entropy path `p`. -/
def freshRand (p : List Nat) : Bytes := .rand (encL p)

theorem freshRand_inj {p q : List Nat} (h : freshRand p = freshRand q) : p = q := by
  simpa [freshRand, Bytes.rand.injEq] using encL_injective (Bytes.rand.inj h)

/-- Hexadecimal digit characters, lowercase (as `uuid.uuid4().hex` uses). -/
def hexChar (n : Nat) : Char :=
  if n < 10 then Char.ofNat (48 + n) else Char.ofNat (87 + n)

/-- Render `n` as exactly `w` lowercase hex digits (most significant first). -/
def hexDigits : Nat → Nat → List Char
  | 0, _ => []
  | w + 1, n => hexDigits w (n / 16) ++ [hexChar (n % 16)]

/-- `uuid.uuid4().hex` for the 128-bit value drawn at entropy path `p`:
32 lowercase hex characters. -/
def uuidHex (p : List Nat) : String :=
  String.mk (hexDigits 32 (encL p % 2 ^ 128))

/-- The semantic error taxonomy of the library (§7 of the spec); comments give
the concrete Python exception raised by the source. -/
inductive Err where
  /-- `KeyError` on a missing dict key (`d["k"]` or `d.pop("k")`). -/
  | keyErrorMissing (field : String)
  /-- `KeyError("No wrapped key for company …")` in `_select_wrapped_key`. -/
  | noKeyForCompany (name : String)
  /-- `KeyError("No protected layer named …")` in `unprotect_layer`. -/
  | noSuchLayer (sec : String)
  /-- `KeyError("Missing fields for selective disclosure: …")` in `_slice_document`. -/
  | missingFields (names : List String)
  /-- `KeyError("Share record tx_id … does not match …")` in `_select_wrapped_key`. -/
  | wrongShareTx
  /-- `KeyError("Share record is not for section …")` in `_select_wrapped_key`. -/
  | wrongShareSection
  /-- `ValueError("Seller signature verification failed; refusing to sign.")`. -/
  | sellerSignatureInvalid
  /-- `binascii.Error`/`AttributeError` from `base64.urlsafe_b64decode`. -/
  | b64Error
  /-- `cryptography` exception from loading a PEM that is not the expected key type. -/
  | badKey
  /-- `InvalidTag` (or malformed blob) from `unwrap_key`. -/
  | unwrapFailed
  /-- `InvalidTag` from `decrypt_aes_gcm`: tampering, wrong key or wrong AAD. -/
  | decryptFailed
  /-- `json.JSONDecodeError` from `json.loads` on non-JSON plaintext. -/
  | jsonDecodeError
  /-- `AttributeError` from dict operations on a non-dict document. -/
  | attributeError
deriving DecidableEq, Repr

namespace crypto

/-- `crypto.b64e`: URL-safe base64 encoding (injective on bytes). -/
def b64e (b : Bytes) : Wire := .b64 b

/-- `crypto.b64d`: URL-safe base64 decoding; raises on a malformed string. -/
def b64d : Wire → Except Err Bytes
  | .b64 b => .ok b
  | .badStr _ => .error .b64Error

/-- `crypto.hash_bytes`: SHA-256. -/
def hash_bytes (b : Bytes) : Bytes := .hash b

/-- `crypto.sign`: Ed25519 signature; loading a PEM that is not an Ed25519
private key raises. -/
def sign (private_signing_pem : Bytes) (message : Bytes) : Except Err Bytes :=
  match private_signing_pem with
  | .sigPriv sid => .ok (.sig sid message)
  | _ => .error .badKey

/-- `crypto.verify`: loads the public PEM (raising if it is not an Ed25519
public key), then returns `true` exactly when the signature verifies —
in the symbolic model, when it is the matching keypair's signature over the
same message. -/
def verify (public_signing_pem : Bytes) (message : Bytes) (signature : Bytes) :
    Except Err Bool :=
  match public_signing_pem with
  | .sigPub sid =>
      .ok (match signature with
        | .sig sid₂ msg₂ => sid₂ == sid && Bytes.beqB msg₂ message
        | _ => false)
  | _ => .error .badKey

/-- `crypto.wrap_key`: X25519 ephemeral-static + HKDF + AES-GCM hybrid wrap of
`symmetric_key` to the recipient's public encryption key; `r` is the entropy
index of the ephemeral keypair and nonce. Raises when the PEM is not an X25519
public key. -/
def wrap_key (recipient_public_pem : Bytes) (symmetric_key : Bytes) (r : Nat) :
    Except Err Bytes :=
  match recipient_public_pem with
  | .encPub eid => .ok (.wrapped eid symmetric_key r)
  | _ => .error .badKey

/-- `crypto.unwrap_key`: recovers the symmetric key exactly when the private
key matches the wrap recipient; a mismatched key or a non-wrap blob fails
(AEAD tag failure / malformed JSON). -/
def unwrap_key (recipient_private_pem : Bytes) (wrapped : Bytes) : Except Err Bytes :=
  match recipient_private_pem with
  | .encPriv eid =>
      match wrapped with
      | .wrapped eid₂ key _ => if eid₂ = eid then .ok key else .error .unwrapFailed
      | _ => .error .unwrapFailed
  | _ => .error .badKey

/-- `crypto.encrypt_aes_gcm`: AES-256-GCM with a fresh 12-byte nonce drawn at
entropy path `p`; returns `(ciphertext, tag, nonce)`. -/
def encrypt_aes_gcm (key : Bytes) (plaintext : Bytes) (associated_data : Option Bytes)
    (p : List Nat) : Bytes × Bytes × Bytes :=
  let nonce := freshRand p
  (.gcmCt key nonce plaintext associated_data,
   .gcmTag key nonce plaintext associated_data,
   nonce)

/-- `crypto.decrypt_aes_gcm`: succeeds exactly when ciphertext and tag come
from one encryption under the same key, nonce and AAD; anything else is an
`InvalidTag` failure. -/
def decrypt_aes_gcm (key ciphertext tag nonce : Bytes) (associated_data : Option Bytes) :
    Except Err Bytes :=
  match ciphertext, tag with
  | .gcmCt k n pt ad, .gcmTag k₂ n₂ pt₂ ad₂ =>
      if k = key ∧ n = nonce ∧ ad = associated_data ∧
          k₂ = key ∧ n₂ = nonce ∧ pt₂ = pt ∧ ad₂ = associated_data
      then .ok pt
      else .error .decryptFailed
  | _, _ => .error .decryptFailed

end crypto

/-- A company key dict as passed to the library (`seller_keys`, `buyer_keys`,
`company_keys`): the `name` key is optional, the four PEM entries are arbitrary
byte strings (so passing a wrong-type PEM fails exactly where the source would
raise). -/
structure Keys where
  name : Option String := none
  signing_private : Bytes
  signing_public : Bytes
  encryption_private : Bytes
  encryption_public : Bytes
deriving DecidableEq

/-- An honest `CompanyIdentity`: the four PEMs come from one Ed25519 keypair
`sid` and one X25519 keypair `eid`. -/
def honestKeys (name : Option String) (sid eid : Nat) : Keys :=
  { name := name
    signing_private := .sigPriv sid
    signing_public := .sigPub sid
    encryption_private := .encPriv eid
    encryption_public := .encPub eid }

/-- A ShareRecord dict. Every field is optional: `none` models the key being
absent from the dict (the well-formed records built by the library set all of
them except `sec`/`layer_hash`, which only layer shares carry). `sec` is the
dict key `"section"`. -/
structure SRec where
  id : Option String := none
  tx_id : Option String := none
  sec : Option String := none
  from_company : Option String := none
  to_company : Option String := none
  ek_to : Option Wire := none
  timestamp : Option String := none
  layer_hash : Option Wire := none
  sig_share : Option Wire := none
deriving DecidableEq

/-- Python truthiness of the record as a dict: non-empty iff some key is
present. -/
def SRec.truthy (r : SRec) : Bool :=
  r.id.isSome || r.tx_id.isSome || r.sec.isSome || r.from_company.isSome ||
    r.to_company.isSome || r.ek_to.isSome || r.timestamp.isSome ||
    r.layer_hash.isSome || r.sig_share.isSome

/-- A protected envelope's own fields (everything except `layers`). Every
field is optional so that crafted/malformed dicts are representable; `none`
models an absent key (for `sig_buyer` it also covers the explicit `None` the
builder stores, which the readers treat identically via `.get`). -/
structure Env where
  tx_id : Option String := none
  ciphertext : Option Wire := none
  tag : Option Wire := none
  nonce : Option Wire := none
  ek_map : List (String × Wire) := []
  hash_T : Option Wire := none
  sig_seller : Option Wire := none
  sig_buyer : Option Wire := none
  created_at : Option String := none
  meta : List (String × Json) := []
deriving DecidableEq

/-- A protected transaction dict: envelope fields plus the optional `layers`
mapping (absent on plain `protect` output). -/
structure PDoc where
  env : Env
  layers : Option (List (String × Env)) := none
deriving DecidableEq

/-- Python truthiness of an optional string (`None` and `""` falsy). -/
def optStrTruthy : Option String → Bool
  | none => false
  | some s => s != ""

/-- Python truthiness of a wire string: base64 of the byte strings in scope is
non-empty, a malformed string is truthy unless empty. -/
def wireTruthy : Wire → Bool
  | .b64 _ => true
  | .badStr s => s != ""

def optWireTruthy : Option Wire → Bool
  | none => false
  | some w => wireTruthy w

/-- One entry of `check`'s `shares` report list; `sec` is the `"section"`
key, present (`some`) only when the record carried a truthy section. -/
structure ShareEntry where
  id : Option String
  from_company : Option String
  valid : Bool
  sec : Option String := none
  layer_hash_ok : Option Bool := none
deriving DecidableEq

/-- The report returned by `check`. -/
structure Report where
  seller_sig_ok : Bool
  buyer_sig_ok : Option Bool
  shares : List ShareEntry
deriving DecidableEq

namespace library

/-- `library._canonical_bytes`: deterministic JSON bytes of a document
(`json.dumps(obj, sort_keys=True, separators=(",",":")).encode("utf-8")`). -/
def _canonical_bytes (document : Json) : Bytes := .json (canon document)

/-- `_canonical_bytes` applied to a share-record dict that has no `sig_share`
key (the record as signed in `create_share_record`, or `rec_copy` after
`pop("sig_share")` in `check`). -/
def recCanonicalBytes (r : SRec) : Bytes :=
  .recBytes r.id r.tx_id r.sec r.from_company r.to_company r.ek_to
    r.timestamp r.layer_hash

/-- The fixed `meta` algorithm tags. -/
def metaBase : List (String × Json) :=
  [("hash_alg", .str "sha256"), ("cipher", .str "AES-256-GCM"),
   ("wrap", .str "X25519+AESGCM")]

/-- The two-entry dict literal `{seller_name: ek_seller, buyer_name: ek_buyer}`
with Python dict semantics (equal keys collapse to one entry holding the later
value). -/
def pyDict2 (k₁ : String) (v₁ : α) (k₂ : String) (v₂ : α) : List (String × α) :=
  dictInsert (dictInsert [] k₁ v₁) k₂ v₂

/-- `b64d(d["field"])`: `KeyError` when the key is absent, then base64
decoding. -/
def fieldB64 (w : Option Wire) (fieldName : String) : Except Err Bytes :=
  match w with
  | none => .error (.keyErrorMissing fieldName)
  | some v => crypto.b64d v

/-- `library._protect_envelope` (library.py lines 15-49): encrypt and sign a
payload, returning the protected envelope fields. `ρ` is the entropy path,
`now` the `datetime.now(timezone.utc).isoformat()` timestamp. -/
def _protect_envelope (payload_bytes : Bytes) (seller_keys buyer_keys : Keys)
    (tx_id : String) (meta_extra : List (String × Json)) (ρ : List Nat)
    (now : String) : Except Err Env := do
  let hash_t := crypto.hash_bytes payload_bytes
  let sym_key := freshRand (ρ ++ [0])
  let (ciphertext, tag, nonce) :=
    crypto.encrypt_aes_gcm sym_key payload_bytes (some hash_t) (ρ ++ [1])
  let ek_seller ← crypto.wrap_key seller_keys.encryption_public sym_key (encL (ρ ++ [2]))
  let ek_buyer ← crypto.wrap_key buyer_keys.encryption_public sym_key (encL (ρ ++ [3]))
  let sig_seller ← crypto.sign seller_keys.signing_private hash_t
  .ok { tx_id := some tx_id
        ciphertext := some (crypto.b64e ciphertext)
        tag := some (crypto.b64e tag)
        nonce := some (crypto.b64e nonce)
        ek_map := pyDict2 (seller_keys.name.getD "seller") (crypto.b64e ek_seller)
                    (buyer_keys.name.getD "buyer") (crypto.b64e ek_buyer)
        hash_T := some (crypto.b64e hash_t)
        sig_seller := some (crypto.b64e sig_seller)
        sig_buyer := none
        created_at := some now
        meta := dictUpdate metaBase meta_extra }

/-- `library.protect` (lines 52-58): `tx_id = str(document.get("id",
uuid.uuid4().hex))`, then `_protect_envelope` on the canonical bytes. -/
def protect (document : Json) (seller_keys buyer_keys : Keys) (ρ : List Nat)
    (now : String) : Except Err PDoc := do
  let fs ← match document with
           | .obj fs => Except.ok fs
           | _ => Except.error Err.attributeError
  let tx_id := match dictGet fs "id" with
               | some v => pyStr v
               | none => uuidHex (ρ ++ [0])
  let env ← _protect_envelope (_canonical_bytes document) seller_keys buyer_keys
              tx_id [] (ρ ++ [1]) now
  .ok { env := env, layers := none }

/-- `library.buyer_sign` (lines 61-70): verify the seller signature over
`hash_T`, then return a copy of the envelope with `sig_buyer` set. -/
def buyer_sign (protected_doc : PDoc) (buyer_keys : Keys)
    (seller_public_signing : Bytes) : Except Err PDoc := do
  let hash_t ← fieldB64 protected_doc.env.hash_T "hash_T"
  let seller_sig ← fieldB64 protected_doc.env.sig_seller "sig_seller"
  let okv ← crypto.verify seller_public_signing hash_t seller_sig
  if okv then do
    let sig_buyer ← crypto.sign buyer_keys.signing_private hash_t
    .ok { protected_doc with
          env := { protected_doc.env with sig_buyer := some (crypto.b64e sig_buyer) } }
  else .error .sellerSignatureInvalid

/-- The `ek_map` fallback of `_select_wrapped_key`. -/
def ekMapLookup (protected_doc : Env) (company_name : String) : Except Err Bytes :=
  match dictGet protected_doc.ek_map company_name with
  | some w => crypto.b64d w
  | none => .error (.noKeyForCompany company_name)

/-- `library._select_wrapped_key` (lines 73-90). Note the Python truthiness
tests: a falsy (empty) share record falls through to the `ek_map` path, and
the section/tx validations only run when `expected_section`/`expected_tx` are
truthy strings. -/
def _select_wrapped_key (protected_doc : Env) (company_name : String)
    (share_record : Option SRec) (expected_section : Option String)
    (expected_tx : Option String) : Except Err Bytes :=
  match share_record with
  | some sh =>
      if sh.truthy then
        if optStrTruthy expected_section && !(sh.sec == expected_section) then
          .error .wrongShareSection
        else if optStrTruthy expected_tx && !(sh.tx_id == expected_tx) then
          .error .wrongShareTx
        else match sh.ek_to with
          | none => .error (.keyErrorMissing "ek_to")
          | some w => crypto.b64d w
      else ekMapLookup protected_doc company_name
  | none => ekMapLookup protected_doc company_name

/-- `json.loads` on decrypted plaintext: canonical document bytes parse back
to the (canonical) value; any other byte string is modelled as failing to
parse. -/
def json_loads : Bytes → Except Err Json
  | .json j => .ok j
  | _ => .error .jsonDecodeError

/-- `library._decrypt_envelope` (lines 93-115). -/
def _decrypt_envelope (protected_doc : Env) (company_keys : Keys)
    (company_name : String) (share_record : Option SRec)
    (expected_section expected_tx : Option String) : Except Err Json := do
  let wrapped ← _select_wrapped_key protected_doc company_name share_record
                  expected_section expected_tx
  let sym_key ← crypto.unwrap_key company_keys.encryption_private wrapped
  let ciphertext ← fieldB64 protected_doc.ciphertext "ciphertext"
  let tag ← fieldB64 protected_doc.tag "tag"
  let nonce ← fieldB64 protected_doc.nonce "nonce"
  let hash_t ← fieldB64 protected_doc.hash_T "hash_T"
  let plaintext ← crypto.decrypt_aes_gcm sym_key ciphertext tag nonce (some hash_t)
  json_loads plaintext

/-- `library.unprotect` (lines 118-129). -/
def unprotect (protected_doc : PDoc) (company_keys : Keys) (company_name : String)
    (share_record : Option SRec := none) : Except Err Json :=
  _decrypt_envelope protected_doc.env company_keys company_name share_record
    none protected_doc.env.tx_id

/-- Python `a or b or c` over optional strings (`None` and `""` falsy). -/
def pyOr3 (a b : Option String) (c : String) : String :=
  match a with
  | some s => if s != "" then s else
      match b with
      | some t => if t != "" then t else c
      | none => c
  | none =>
      match b with
      | some t => if t != "" then t else c
      | none => c

/-- `library.create_share_record` (lines 132-157). -/
def create_share_record (protected_doc : PDoc) (from_company_keys : Keys)
    (to_company_name : String) (to_company_public_enc : Bytes)
    (from_company_name : Option String) (ρ : List Nat) (now : String) :
    Except Err SRec := do
  let from_name := pyOr3 from_company_name from_company_keys.name "unknown"
  let w ← _select_wrapped_key protected_doc.env from_name none none none
  let sym_key ← crypto.unwrap_key from_company_keys.encryption_private w
  let ek_to ← crypto.wrap_key to_company_public_enc sym_key (encL (ρ ++ [0]))
  let tx ← match protected_doc.env.tx_id with
           | some t => Except.ok t
           | none => Except.error (Err.keyErrorMissing "tx_id")
  let record : SRec :=
    { id := some (uuidHex (ρ ++ [1])), tx_id := some tx
      from_company := some from_name, to_company := some to_company_name
      ek_to := some (crypto.b64e ek_to), timestamp := some now }
  let sigb ← crypto.sign from_company_keys.signing_private
               (crypto.hash_bytes (recCanonicalBytes record))
  .ok { record with sig_share := some (crypto.b64e sigb) }

/-- `library._slice_document` (lines 160-165). -/
def _slice_document (document : Json) (fields : List String) : Except Err Json :=
  match document with
  | .obj fs =>
      let missing := fields.filter (fun f => !(dictHas fs f))
      if missing != [] then .error (.missingFields missing)
      else .ok (.obj (fields.foldl
             (fun acc f => dictInsert acc f ((dictGet fs f).getD .null)) []))
  | _ => .error .attributeError

/-- The layer-building loop of `protect_with_layers`, carrying the
`layered_payloads` accumulator dict and the iteration index (for entropy). -/
def buildLayers (document : Json) (seller_keys buyer_keys : Keys) (tx_id : String)
    (now : String) (ρ : List Nat) :
    List (String × List String) → Nat → List (String × Env) →
    Except Err (List (String × Env))
  | [], _, acc => .ok acc
  | (sec, fields) :: rest, i, acc => do
      let slice ← _slice_document document fields
      let envelope ← _protect_envelope (_canonical_bytes slice) seller_keys
                       buyer_keys tx_id
                       [("section", .str sec), ("fields", .arr (fields.map Json.str))]
                       (ρ ++ [i + 1]) now
      buildLayers document seller_keys buyer_keys tx_id now ρ rest (i + 1)
        (dictInsert acc sec envelope)

/-- `library.protect_with_layers` (lines 168-196): the `layers` argument is
`None` or a dict of section name to field list; a falsy value returns the
plain protected doc without a `layers` key. -/
def protect_with_layers (document : Json) (seller_keys buyer_keys : Keys)
    (layers : Option (List (String × List String))) (ρ : List Nat)
    (now : String) : Except Err PDoc := do
  let protected_doc ← protect document seller_keys buyer_keys (ρ ++ [0]) now
  match layers with
  | none => .ok protected_doc
  | some ls =>
      if ls = [] then .ok protected_doc
      else do
        let tx ← match protected_doc.env.tx_id with
                 | some t => Except.ok t
                 | none => Except.error (Err.keyErrorMissing "tx_id")
        let lp ← buildLayers document seller_keys buyer_keys tx now ρ ls 0 []
        .ok { protected_doc with layers := some lp }

/-- `library.unprotect_layer` (lines 199-218). -/
def unprotect_layer (protected_doc : PDoc) (company_keys : Keys)
    (company_name : String) (sec : String) (share_record : Option SRec := none) :
    Except Err Json :=
  match dictGet (protected_doc.layers.getD []) sec with
  | none => .error (.noSuchLayer sec)
  | some envelope =>
      _decrypt_envelope envelope company_keys company_name share_record
        (some sec) protected_doc.env.tx_id

/-- The exception-free head of `check`'s share loop (lines 289-294): build the
entry and, when the record carries a truthy section, attach `section` and
`layer_hash_ok` (`False` when the layer or its `hash_T` is missing or falsy). -/
def shareEntryBase (protected_doc : PDoc) (r : SRec) : ShareEntry :=
  let entry0 : ShareEntry :=
    { id := r.id, from_company := r.from_company, valid := false }
  match r.sec with
  | some s =>
      if s != "" then
        let expected : Option Wire :=
          (dictGet (protected_doc.layers.getD []) s).bind (fun e => e.hash_T)
        let lho : Bool :=
          if optWireTruthy expected then r.layer_hash == expected else false
        { entry0 with sec := some s, layer_hash_ok := some lho }
      else entry0
  | none => entry0

/-- The body of `check`'s share loop (lines 288-307) for one record. -/
def checkShare (protected_doc : PDoc)
    (share_public_keys : Option (List (String × Bytes))) (r : SRec) :
    Except Err ShareEntry :=
  let entry := shareEntryBase protected_doc r
  match share_public_keys with
  | none => .ok entry
  | some pks =>
      if pks = [] then .ok entry
      else
        let pub : Option Bytes :=
          match r.from_company with
          | some n => dictGet pks n
          | none => none
        match pub with
        | none => .ok entry
        | some pubk =>
            match r.sig_share with
            | none => .error (.keyErrorMissing "sig_share")
            | some w => do
                let sigb ← crypto.b64d w
                let v ← crypto.verify pubk
                          (crypto.hash_bytes (recCanonicalBytes r)) sigb
                .ok { entry with valid := v }

/-- The share loop of `check`, in order. -/
def checkShares (protected_doc : PDoc)
    (share_public_keys : Option (List (String × Bytes))) :
    List SRec → Except Err (List ShareEntry)
  | [] => .ok []
  | r :: rs => do
      let e ← checkShare protected_doc share_public_keys r
      let es ← checkShares protected_doc share_public_keys rs
      .ok (e :: es)

/-- The buyer-signature phase of `check` (lines 280-285): `null` when
`sig_buyer` is absent or falsy, `false` when present without a buyer key,
otherwise the verification result. -/
def buyerSigCheck (hash_t : Bytes) (sig_buyer : Option Wire)
    (buyer_public_signing : Option Bytes) : Except Err (Option Bool) :=
  match sig_buyer with
  | some w =>
      if wireTruthy w then
        match buyer_public_signing with
        | some bp => do
            let sb ← crypto.b64d w
            let v ← crypto.verify bp hash_t sb
            pure (some v)
        | none => pure (some false)
      else pure none
  | none => pure none

/-- The share phase of `check` (lines 287-307). -/
def sharesCheck (protected_doc : PDoc)
    (share_records : Option (List SRec))
    (share_public_keys : Option (List (String × Bytes))) :
    Except Err (List ShareEntry) :=
  match share_records with
  | some recs =>
      if recs = [] then pure []
      else checkShares protected_doc share_public_keys recs
  | none => pure []

/-- `library.check` (lines 264-308). -/
def check (protected_doc : PDoc) (seller_public_signing : Bytes)
    (buyer_public_signing : Option Bytes := none)
    (share_records : Option (List SRec) := none)
    (share_public_keys : Option (List (String × Bytes)) := none) :
    Except Err Report := do
  let hash_t ← fieldB64 protected_doc.env.hash_T "hash_T"
  let seller_sig ← fieldB64 protected_doc.env.sig_seller "sig_seller"
  let seller_sig_ok ← crypto.verify seller_public_signing hash_t seller_sig
  let buyer_sig_ok ← buyerSigCheck hash_t protected_doc.env.sig_buyer
                       buyer_public_signing
  let shares ← sharesCheck protected_doc share_records share_public_keys
  .ok { seller_sig_ok := seller_sig_ok, buyer_sig_ok := buyer_sig_ok,
        shares := shares }

end library

open library

/-- Concrete identities and document used by the witnesses. -/
def sellerW : Keys := honestKeys (some "seller") 0 0

def buyerW : Keys := honestKeys (some "buyer") 1 1

def auditorW : Keys := honestKeys (some "auditor") 2 2

def docW : Json :=
  .obj [("amount", .num 100), ("id", .str "tx-1"), ("product", .str "X")]

/-- **C1.** For every document representable in the canonical JSON model and
honest identities named `"seller"` and `"buyer"`, unprotecting a protected
document as the seller (resp. the buyer) returns the document unchanged:
`unprotect(protect(D, S, B), S, "seller") == D` and likewise for the buyer. -/
theorem C1_protect_unprotect_round_trip
    (fs : List (String × Json)) (sid₁ eid₁ sid₂ eid₂ : Nat) (ρ : List Nat)
    (now : String) (hc : IsCanonical (.obj fs)) :
    ((protect (.obj fs) (honestKeys (some "seller") sid₁ eid₁)
        (honestKeys (some "buyer") sid₂ eid₂) ρ now).bind
      (fun p => unprotect p (honestKeys (some "seller") sid₁ eid₁) "seller"))
      = .ok (.obj fs) ∧
    ((protect (.obj fs) (honestKeys (some "seller") sid₁ eid₁)
        (honestKeys (some "buyer") sid₂ eid₂) ρ now).bind
      (fun p => unprotect p (honestKeys (some "buyer") sid₂ eid₂) "buyer"))
      = .ok (.obj fs) := by
  unfold IsCanonical at hc
  constructor <;>
    simp [protect, _protect_envelope, _canonical_bytes, unprotect,
      _decrypt_envelope, _select_wrapped_key, ekMapLookup, fieldB64, json_loads,
      honestKeys, pyDict2, dictInsert, dictGet, crypto.wrap_key, crypto.sign,
      crypto.b64e, crypto.b64d, crypto.unwrap_key, crypto.hash_bytes,
      crypto.encrypt_aes_gcm, crypto.decrypt_aes_gcm, Except.bind, Bind.bind,
      Except.pure, Pure.pure, hc]

theorem C1_witness :
    IsCanonical docW ∧
    (((protect docW sellerW buyerW [] "t").bind
        (fun p => unprotect p sellerW "seller")) = .ok docW ∧
     ((protect docW sellerW buyerW [] "t").bind
        (fun p => unprotect p buyerW "buyer")) = .ok docW) :=
  ⟨by decide,
   C1_protect_unprotect_round_trip
     [("amount", .num 100), ("id", .str "tx-1"), ("product", .str "X")]
     0 0 1 1 [] "t" (by decide)⟩

theorem beqB_iff_eq {a b : Bytes} : Bytes.beqB a b = true ↔ a = b :=
  ⟨Bytes.eqB_of_beq a b, fun h => h ▸ Bytes.beqB_refl a⟩

/-- **C3 (counterexample).** For the document `{"id": 5}` the `"id"` field is
present but not a string, so the claim demands a freshly generated 128-bit
hex `tx_id` — which for this call's entropy is `uuidHex [0]` (32 lowercase hex
characters). The code instead coerces: `tx_id = str(5) = "5"`. -/
theorem C3_counterexample :
    (protect (.obj [("id", .num 5)]) sellerW buyerW [] "t").map
        (fun p => p.env.tx_id) = .ok (some "5")
    ∧ "5" ≠ uuidHex ([] ++ [0])
    ∧ (uuidHex ([] ++ [0])).length = 32 := by
  refine ⟨by decide, by decide, by decide⟩

/-- **C3 (amended).** `tx_id = str(document.get("id", uuid4().hex))`: when the
`"id"` field is present, `tx_id` is the Python `str()` of its value (the
string itself when it is a string, a coercion otherwise); only when the field
is absent is `tx_id` a freshly generated 128-bit identifier in lowercase hex. -/
theorem C3_amended_tx_id
    (fs : List (String × Json)) (n₁ n₂ : Option String)
    (sid₁ eid₁ sid₂ eid₂ : Nat) (ρ : List Nat) (now : String) :
    (protect (.obj fs) (honestKeys n₁ sid₁ eid₁) (honestKeys n₂ sid₂ eid₂) ρ now).map
        (fun p => p.env.tx_id)
      = .ok (some (match dictGet fs "id" with
                   | some v => pyStr v
                   | none => uuidHex (ρ ++ [0]))) := by
  cases h : dictGet fs "id" <;>
    simp [protect, _protect_envelope, honestKeys, crypto.wrap_key, crypto.sign,
      Except.bind, Bind.bind, Except.pure, Pure.pure, Except.map, h]

/-- **C7.** For every envelope whose `sig_seller` is a valid base64 Ed25519
signature over its `hash_T` under the supplied seller public key, and an
honest buyer, `buyer_sign` returns a copy equal to its input in every field
except `sig_buyer`, which is set to the buyer's signature over `hash_T` (the
embedding is pure, so the input itself is untouched; the source realizes this
by rebinding `protected_doc = dict(protected_doc)` before mutating). -/
theorem C7_buyer_sign_frame
    (P : PDoc) (h : Bytes) (sid bsid beid : Nat) (bn : Option String)
    (hh : P.env.hash_T = some (.b64 h))
    (hs : P.env.sig_seller = some (.b64 (.sig sid h))) :
    buyer_sign P (honestKeys bn bsid beid) (.sigPub sid)
      = .ok { P with env := { P.env with sig_buyer := some (crypto.b64e (.sig bsid h)) } } := by
  simp [buyer_sign, fieldB64, crypto.b64d, crypto.verify, crypto.sign,
    crypto.b64e, honestKeys, Except.bind, Bind.bind, Except.pure, Pure.pure,
    hh, hs, Bytes.beqB_refl]

def envW : Env :=
  { hash_T := some (.b64 (.hash (.json .null)))
    sig_seller := some (.b64 (.sig 0 (.hash (.json .null)))) }

theorem C7_witness :
    ({ env := envW } : PDoc).env.hash_T = some (.b64 (.hash (.json .null))) ∧
    ({ env := envW } : PDoc).env.sig_seller
      = some (.b64 (.sig 0 (.hash (.json .null)))) ∧
    buyer_sign { env := envW } (honestKeys (some "buyer") 1 1) (.sigPub 0)
      = .ok { env := { envW with
                sig_buyer := some (crypto.b64e (.sig 1 (.hash (.json .null)))) } } :=
  ⟨rfl, rfl, C7_buyer_sign_frame { env := envW } (.hash (.json .null)) 0 1 1
    (some "buyer") rfl rfl⟩

/-- **C8.** For every envelope whose `hash_T` and `sig_seller` are present and
base64-decodable and a well-formed seller public key, `buyer_sign` fails with
`SellerSignatureInvalid` (a `ValueError` in the source) exactly when the
decoded `sig_seller` is not the seller's Ed25519 signature over the decoded
`hash_T`; in that case it returns no envelope (so no buyer signature is
produced, and the pure input is unchanged). -/
theorem C8_buyer_sign_rejects
    (P : PDoc) (B : Keys) (h sb : Bytes) (sid : Nat)
    (hh : P.env.hash_T = some (.b64 h))
    (hs : P.env.sig_seller = some (.b64 sb)) :
    (buyer_sign P B (.sigPub sid) = .error .sellerSignatureInvalid) ↔ sb ≠ .sig sid h := by
  cases sb <;>
    simp_all [buyer_sign, fieldB64, crypto.b64d, crypto.verify, crypto.sign,
      Except.bind, Bind.bind, Except.pure, Pure.pure, beqB_iff_eq]
  case sig sid₂ msg =>
    by_cases h₁ : sid₂ = sid <;> by_cases h₂ : msg = h <;>
      cases hB : B.signing_private <;>
        simp_all [crypto.sign, crypto.b64e, Except.bind, Bind.bind, Except.pure,
          Pure.pure, beqB_iff_eq]

theorem C8_witness :
    ({ env := envW } : PDoc).env.hash_T = some (.b64 (.hash (.json .null))) ∧
    ({ env := envW } : PDoc).env.sig_seller
      = some (.b64 (.sig 0 (.hash (.json .null)))) ∧
    ((buyer_sign { env := envW } buyerW (.sigPub 7) = .error .sellerSignatureInvalid)
      ↔ (Bytes.sig 0 (.hash (.json .null))) ≠ .sig 7 (.hash (.json .null))) :=
  ⟨rfl, rfl, C8_buyer_sign_rejects { env := envW } buyerW (.hash (.json .null))
    (.sig 0 (.hash (.json .null))) 7 rfl rfl⟩

/-- **C9.** In every envelope produced by `_protect_envelope` (hence by
`protect` and by every layer sub-envelope) with honest parties, `ek_map` is
the dict literal keyed by the seller's and buyer's names (defaulting to
`"seller"`/`"buyer"` when the `name` key is missing); equal names collapse to
a single entry holding only the buyer's wrapped key, so the map has exactly
two entries iff the names differ. -/
theorem C9_ek_map_entries
    (payload : Bytes) (n₁ n₂ : Option String) (sid₁ eid₁ sid₂ eid₂ : Nat)
    (tx now : String) (me : List (String × Json)) (ρ : List Nat) (e : Env)
    (he : _protect_envelope payload (honestKeys n₁ sid₁ eid₁)
            (honestKeys n₂ sid₂ eid₂) tx me ρ now = .ok e) :
    e.ek_map = (if n₁.getD "seller" = n₂.getD "buyer"
      then [(n₂.getD "buyer",
             crypto.b64e (.wrapped eid₂ (freshRand (ρ ++ [0])) (encL (ρ ++ [3]))))]
      else [(n₁.getD "seller",
             crypto.b64e (.wrapped eid₁ (freshRand (ρ ++ [0])) (encL (ρ ++ [2])))),
            (n₂.getD "buyer",
             crypto.b64e (.wrapped eid₂ (freshRand (ρ ++ [0])) (encL (ρ ++ [3]))))])
    ∧ (e.ek_map.length = 2 ↔ n₁.getD "seller" ≠ n₂.getD "buyer") := by
  simp only [_protect_envelope, honestKeys, crypto.wrap_key, crypto.sign,
    Except.bind, Bind.bind, Except.pure, Pure.pure, Except.ok.injEq] at he
  subst he
  by_cases h : n₁.getD "seller" = n₂.getD "buyer" <;>
    simp [pyDict2, dictInsert, h]

theorem C9_witness :
    (_protect_envelope (.json .null) (honestKeys (some "p") 0 0)
        (honestKeys (some "p") 1 1) "tx" [] [] "t"
      = .ok { tx_id := some "tx"
              ciphertext := some (.b64 (.gcmCt (freshRand [0]) (freshRand [1])
                (.json .null) (some (.hash (.json .null)))))
              tag := some (.b64 (.gcmTag (freshRand [0]) (freshRand [1])
                (.json .null) (some (.hash (.json .null)))))
              nonce := some (.b64 (freshRand [1]))
              ek_map := [("p", crypto.b64e (.wrapped 1 (freshRand [0]) (encL [3])))]
              hash_T := some (.b64 (.hash (.json .null)))
              sig_seller := some (.b64 (.sig 0 (.hash (.json .null))))
              sig_buyer := none
              created_at := some "t"
              meta := metaBase })
    ∧ (({ tx_id := some "tx"
          ciphertext := some (.b64 (.gcmCt (freshRand [0]) (freshRand [1])
            (.json .null) (some (.hash (.json .null)))))
          tag := some (.b64 (.gcmTag (freshRand [0]) (freshRand [1])
            (.json .null) (some (.hash (.json .null)))))
          nonce := some (.b64 (freshRand [1]))
          ek_map := [("p", crypto.b64e (.wrapped 1 (freshRand [0]) (encL [3])))]
          hash_T := some (.b64 (.hash (.json .null)))
          sig_seller := some (.b64 (.sig 0 (.hash (.json .null))))
          sig_buyer := none
          created_at := some "t"
          meta := metaBase } : Env).ek_map
        = (if (some "p" : Option String).getD "seller"
              = (some "p" : Option String).getD "buyer"
           then [((some "p" : Option String).getD "buyer",
                  crypto.b64e (.wrapped 1 (freshRand ([] ++ [0])) (encL ([] ++ [3]))))]
           else [((some "p" : Option String).getD "seller",
                  crypto.b64e (.wrapped 0 (freshRand ([] ++ [0])) (encL ([] ++ [2])))),
                 ((some "p" : Option String).getD "buyer",
                  crypto.b64e (.wrapped 1 (freshRand ([] ++ [0])) (encL ([] ++ [3]))))])
       ∧ (([("p", crypto.b64e (.wrapped 1 (freshRand [0]) (encL [3])))] :
            List (String × Wire)).length = 2
          ↔ (some "p" : Option String).getD "seller"
              ≠ (some "p" : Option String).getD "buyer")) :=
  ⟨by decide, C9_ek_map_entries (.json .null) (some "p") (some "p") 0 0 1 1
    "tx" "t" [] [] _ (by decide)⟩

/-- **C10 (counterexample).** An empty dict is a supplied share record, but it
is falsy, so `_select_wrapped_key` falls through to the `ek_map[company_name]`
path: with the same envelope, keys and empty share record, the name
`"seller"` decrypts while the name `"other"` fails `NoKeyForCompany` — the
result depends on `company_name`. -/
theorem C10_counterexample :
    ((protect docW sellerW buyerW [] "t").bind
        (fun p => unprotect p sellerW "seller" (some {}))) = .ok docW
    ∧ ((protect docW sellerW buyerW [] "t").bind
        (fun p => unprotect p sellerW "other" (some {})))
        = .error (.noKeyForCompany "other") :=
  ⟨by decide, by decide⟩

/-- **C10 (amended).** When the supplied share record is non-empty (truthy as
a Python dict), the results of `unprotect` and `unprotect_layer` do not depend
on the `company_name` argument — the wrapped key is taken from the record and
the caller's name is never compared against `to_company`. -/
theorem C10_amended
    (P : PDoc) (K : Keys) (sh : SRec) (n₁ n₂ : String) (s : String)
    (ht : sh.truthy = true) :
    unprotect P K n₁ (some sh) = unprotect P K n₂ (some sh)
    ∧ unprotect_layer P K n₁ s (some sh) = unprotect_layer P K n₂ s (some sh) := by
  constructor
  · simp [unprotect, _decrypt_envelope, _select_wrapped_key, ht]
  · cases hd : dictGet (P.layers.getD []) s <;>
      simp [unprotect_layer, _decrypt_envelope, _select_wrapped_key, ht, hd]

theorem C10_witness :
    ({ tx_id := some "z" } : SRec).truthy = true
    ∧ (unprotect { env := envW } auditorW "a" (some { tx_id := some "z" })
        = unprotect { env := envW } auditorW "b" (some { tx_id := some "z" })
       ∧ unprotect_layer { env := envW } auditorW "a" "s" (some { tx_id := some "z" })
        = unprotect_layer { env := envW } auditorW "b" "s" (some { tx_id := some "z" })) :=
  ⟨rfl, C10_amended { env := envW } auditorW { tx_id := some "z" } "a" "b" "s" rfl⟩

/-- The share record of C4's counterexample: it carries a `section` field and
a matching `tx_id`, and its `ek_to` wraps the parent envelope's symmetric key
(the one drawn at entropy path `[1, 0]` by `protect docW sellerW buyerW []`)
for the auditor's X25519 keypair. -/
def shC4 : SRec :=
  { tx_id := some "tx-1", sec := some "evil",
    ek_to := some (.b64 (.wrapped 2 (freshRand [1, 0]) 99)) }

/-- **C4 (counterexample).** The claim says `unprotect` rejects a share record
that carries a `section` field regardless of whether its `ek_to` would let
the envelope decrypt. It does not: `unprotect` passes `expected_section=None`
to `_select_wrapped_key`, whose section test `if expected_section and …` is
skipped on a falsy expectation, so this section-carrying share decrypts the
full transaction successfully. -/
theorem C4_counterexample :
    ((protect docW sellerW buyerW [] "t").bind
        (fun p => unprotect p auditorW "anyone" (some shC4))) = .ok docW := by
  decide

/-- **C4 (amended).** With a non-empty share record, `unprotect` fails with
`WrongShareTx` when the envelope's `tx_id` is truthy (present and non-empty)
and the record's `tx_id` differs; but no section check is performed: the
result of `unprotect` is independent of the record's `section` field (a
share carrying a section is accepted whenever its `ek_to` decrypts the
envelope; with a falsy envelope `tx_id` even the tx validation is skipped). -/
theorem C4_amended
    (P : PDoc) (K : Keys) (n : String) (sh : SRec)
    (ht : sh.truthy = true) :
    (optStrTruthy P.env.tx_id = true → sh.tx_id ≠ P.env.tx_id →
      unprotect P K n (some sh) = .error .wrongShareTx)
    ∧ ∀ s : String,
        ({ sh with sec := some s } : SRec).truthy = true
        ∧ unprotect P K n (some { sh with sec := some s })
            = unprotect P K n (some sh) := by
  constructor
  · intro h₁ h₂
    cases htx : P.env.tx_id with
    | none => simp [htx, optStrTruthy] at h₁
    | some t =>
        rw [htx] at h₁ h₂
        simp only [optStrTruthy, bne_iff_ne, ne_eq, decide_eq_true_eq] at h₁
        simp [unprotect, _decrypt_envelope, _select_wrapped_key, ht, htx,
          optStrTruthy, h₁, beq_eq_false_iff_ne, h₂, Except.bind, Bind.bind]
  · intro s
    have h2 : ({ sh with sec := some s } : SRec).truthy = true := by
      simp [SRec.truthy]
    exact ⟨h2, by
      simp [unprotect, _decrypt_envelope, _select_wrapped_key, ht, h2, optStrTruthy]⟩

theorem C4_witness :
    ({ tx_id := some "z" } : SRec).truthy = true
    ∧ ((optStrTruthy ({ env := { envW with tx_id := some "tx" } } : PDoc).env.tx_id = true →
          ({ tx_id := some "z" } : SRec).tx_id ≠ some "tx" →
          unprotect { env := { envW with tx_id := some "tx" } } auditorW "a"
            (some { tx_id := some "z" }) = .error .wrongShareTx)
       ∧ ∀ s : String,
           ({ tx_id := some "z", sec := some s } : SRec).truthy = true
           ∧ unprotect { env := { envW with tx_id := some "tx" } } auditorW "a"
               (some { tx_id := some "z", sec := some s })
               = unprotect { env := { envW with tx_id := some "tx" } } auditorW "a"
                   (some { tx_id := some "z" })) :=
  ⟨rfl, C4_amended { env := { envW with tx_id := some "tx" } } auditorW "a"
    { tx_id := some "z" } rfl⟩

/-- **C5.** Share delegation: for every canonical document, honest seller and
buyer named `"seller"`/`"buyer"`, and any honest recipient whose name has no
entry in the envelope's `ek_map` (its keys are exactly `"seller"` and
`"buyer"`), the share record created by the buyer for the recipient wraps in
`ek_to` exactly the envelope's symmetric key for the recipient's encryption
key, so `unprotect(P, R, r_name, sh) == D`. -/
theorem C5_share_delegation
    (fs : List (String × Json)) (sid₁ eid₁ sid₂ eid₂ sidR eidR : Nat)
    (rn : Option String) (r_name : String) (ρ₁ ρ₂ : List Nat)
    (now₁ now₂ : String)
    (hc : IsCanonical (.obj fs))
    (hr : r_name ≠ "seller" ∧ r_name ≠ "buyer") :
    ((protect (.obj fs) (honestKeys (some "seller") sid₁ eid₁)
        (honestKeys (some "buyer") sid₂ eid₂) ρ₁ now₁).bind
      (fun p => (create_share_record p (honestKeys (some "buyer") sid₂ eid₂)
          r_name (.encPub eidR) (some "buyer") ρ₂ now₂).bind
        (fun sh => unprotect p (honestKeys rn sidR eidR) r_name (some sh))))
      = .ok (.obj fs) := by
  unfold IsCanonical at hc
  simp [protect, _protect_envelope, _canonical_bytes, create_share_record,
    unprotect, _decrypt_envelope, _select_wrapped_key, ekMapLookup, fieldB64,
    json_loads, honestKeys, pyOr3, pyDict2, dictInsert, dictGet, SRec.truthy,
    optStrTruthy, recCanonicalBytes, crypto.wrap_key, crypto.sign, crypto.b64e,
    crypto.b64d, crypto.unwrap_key, crypto.hash_bytes, crypto.encrypt_aes_gcm,
    crypto.decrypt_aes_gcm, Except.bind, Bind.bind, Except.pure, Pure.pure, hc]

theorem C5_witness :
    IsCanonical docW
    ∧ ("auditor" ≠ "seller" ∧ "auditor" ≠ "buyer")
    ∧ ((protect docW (honestKeys (some "seller") 0 0)
          (honestKeys (some "buyer") 1 1) [] "t").bind
        (fun p => (create_share_record p (honestKeys (some "buyer") 1 1)
            "auditor" (.encPub 2) (some "buyer") [5] "t1").bind
          (fun sh => unprotect p (honestKeys (some "auditor") 2 2) "auditor" (some sh))))
        = .ok docW :=
  ⟨by decide, by decide,
   C5_share_delegation
     [("amount", .num 100), ("id", .str "tx-1"), ("product", .str "X")]
     0 0 1 1 2 2 (some "auditor") "auditor" [] [5] "t" "t1"
     (by decide) (by decide)⟩

/-- A field that is present and decodable base64 (so the `b64d(d[k])` in
`check`'s envelope phase cannot raise). -/
def wireDecodable : Option Wire → Bool
  | some (.b64 _) => true
  | _ => false

/-- A PEM that loads as an Ed25519 public key (so `crypto.verify` cannot
raise). -/
def pubOk : Bytes → Bool
  | .sigPub _ => true
  | _ => false

/-- The buyer-signature phase of `check` cannot raise: either `sig_buyer` is
absent/falsy, or no buyer key is supplied, or the signature decodes and the
key is well-formed. -/
def buyerWF (sb : Option Wire) (bp : Option Bytes) : Bool :=
  match sb with
  | none => true
  | some w =>
      if wireTruthy w then
        match bp with
        | some b => wireDecodable (some w) && pubOk b
        | none => true
      else true

/-- The signing key `check` would use for a record: `none` when
`share_public_keys` is falsy, the record has no `from_company`, or the company
is unknown. -/
def pksFor (pks : Option (List (String × Bytes))) (r : SRec) : Option Bytes :=
  match pks with
  | none => none
  | some l =>
      if l = [] then none
      else match r.from_company with
           | none => none
           | some nm => dictGet l nm

/-- The share phase of `check` cannot raise on this record: whenever a public
key is available for it, its `sig_share` is present and decodable and the key
is well-formed. -/
def recCheckSafe (pks : Option (List (String × Bytes))) (r : SRec) : Bool :=
  match pksFor pks r with
  | none => true
  | some pk => wireDecodable r.sig_share && pubOk pk

theorem shareEntryBase_valid (P : PDoc) (r : SRec) :
    (shareEntryBase P r).valid = false := by
  unfold shareEntryBase
  cases r.sec with
  | none => rfl
  | some s =>
      by_cases hs : s != "" <;> simp [hs]

theorem checkShare_safe (P : PDoc) (pks : Option (List (String × Bytes)))
    (r : SRec) (h : recCheckSafe pks r = true) :
    ∃ e, checkShare P pks r = .ok e ∧ (pksFor pks r = none → e.valid = false) := by
  unfold recCheckSafe pksFor at h
  unfold checkShare pksFor
  cases hp : pks with
  | none => exact ⟨_, rfl, fun _ => shareEntryBase_valid P r⟩
  | some l =>
      by_cases hl : l = []
      · subst hl
        exact ⟨_, rfl, fun _ => shareEntryBase_valid P r⟩
      · simp only [hp, hl, if_neg hl, if_false] at h ⊢
        cases hf : r.from_company with
        | none => simp [hl]; exact shareEntryBase_valid P r
        | some nm =>
            simp only [hf] at h ⊢
            cases hg : dictGet l nm with
            | none => simp [hl, hg]; exact shareEntryBase_valid P r
            | some pk =>
                simp only [hg, Bool.and_eq_true] at h
                obtain ⟨hd, hk⟩ := h
                cases hw : r.sig_share with
                | none => rw [hw] at hd; exact absurd hd (by simp [wireDecodable])
                | some w =>
                    cases w with
                    | badStr s => rw [hw] at hd; exact absurd hd (by simp [wireDecodable])
                    | b64 sb =>
                        cases pk with
                        | sigPub k =>
                            simp only [hl, hg, hw, eq_self_iff_true,
                              not_true_eq_false, ite_false, if_false,
                              crypto.b64d, crypto.verify, Except.bind,
                              Bind.bind, Except.pure, Pure.pure]
                            exact ⟨_, rfl, by simp⟩
                        | json j => exact absurd hk (by simp [pubOk])
                        | recBytes a b c d e f g i => exact absurd hk (by simp [pubOk])
                        | hash b => exact absurd hk (by simp [pubOk])
                        | rand n => exact absurd hk (by simp [pubOk])
                        | sig a b => exact absurd hk (by simp [pubOk])
                        | sigPriv a => exact absurd hk (by simp [pubOk])
                        | encPub a => exact absurd hk (by simp [pubOk])
                        | encPriv a => exact absurd hk (by simp [pubOk])
                        | wrapped a b c => exact absurd hk (by simp [pubOk])
                        | gcmCt a b c d => exact absurd hk (by simp [pubOk])
                        | gcmTag a b c d => exact absurd hk (by simp [pubOk])

theorem checkShares_safe (P : PDoc) (pks : Option (List (String × Bytes))) :
    ∀ l : List SRec, (∀ r ∈ l, recCheckSafe pks r = true) →
      ∃ es, checkShares P pks l = .ok es ∧
        List.Forall₂ (fun (r : SRec) (e : ShareEntry) =>
          pksFor pks r = none → e.valid = false) l es := by
  intro l
  induction l with
  | nil => exact fun _ => ⟨[], rfl, List.Forall₂.nil⟩
  | cons r rs ih =>
      intro hall
      obtain ⟨e, he, hv⟩ := checkShare_safe P pks r (hall r (by simp))
      obtain ⟨es, hes, hf⟩ := ih (fun x hx => hall x (by simp [hx]))
      exact ⟨e :: es, by simp [checkShares, he, hes, Except.bind, Bind.bind,
        Except.pure, Pure.pure], List.Forall₂.cons hv hf⟩

/-- The envelope of C2's counterexample: well-formed `hash_T` and
`sig_seller`. -/
def envC2 : Env :=
  { hash_T := some (.b64 (.hash (.json .null)))
    sig_seller := some (.b64 (.sig 0 (.hash (.json .null)))) }

/-- **C2 (counterexample).** A share record lacking `sig_share`, checked with
a known public key for its `from_company`, makes `check` raise (`KeyError`
from `rec_copy.pop("sig_share")`) instead of reporting `valid=false`. -/
theorem C2_counterexample :
    check { env := envC2 } (.sigPub 0) none
        (some [{ from_company := some "c" }]) (some [("c", .sigPub 5)])
      = .error (.keyErrorMissing "sig_share") := by
  decide

theorem buyerSigCheck_safe (h : Bytes) (sb : Option Wire) (bp : Option Bytes)
    (hwf : buyerWF sb bp = true) :
    ∃ vb, buyerSigCheck h sb bp = .ok vb := by
  unfold buyerWF at hwf
  unfold buyerSigCheck
  cases sb with
  | none => exact ⟨none, rfl⟩
  | some w =>
      by_cases hw : wireTruthy w = true
      · cases bp with
        | none => exact ⟨some false, by simp [hw, Except.pure, Pure.pure]⟩
        | some b =>
            simp only [hw, if_true, Bool.and_eq_true] at hwf
            obtain ⟨hdw, hpb⟩ := hwf
            obtain ⟨x, hx⟩ : ∃ x, w = .b64 x := by
              cases w with
              | b64 x => exact ⟨x, rfl⟩
              | badStr s => exact absurd hdw (by simp [wireDecodable])
            obtain ⟨t, ht⟩ : ∃ t, b = .sigPub t := by
              cases b <;> simp_all [pubOk]
            subst hx ht
            simp [hw, crypto.b64d, crypto.verify, Except.bind, Bind.bind,
              Except.pure, Pure.pure]
      · exact ⟨none, by simp [hw, Except.pure, Pure.pure]⟩

theorem sharesCheck_safe (P : PDoc) (recs : Option (List SRec))
    (pks : Option (List (String × Bytes)))
    (h : ∀ r ∈ recs.getD [], recCheckSafe pks r = true) :
    ∃ es, sharesCheck P recs pks = .ok es ∧
      List.Forall₂ (fun (r : SRec) (e : ShareEntry) =>
        pksFor pks r = none → e.valid = false) (recs.getD []) es := by
  unfold sharesCheck
  cases recs with
  | none => exact ⟨[], rfl, List.Forall₂.nil⟩
  | some l =>
      by_cases hl : l = []
      · subst hl
        exact ⟨[], rfl, List.Forall₂.nil⟩
      · obtain ⟨es, hes, hf⟩ := checkShares_safe P pks l (by simpa using h)
        exact ⟨es, by simp [hl, hes], by simpa using hf⟩

/-- **C2 (amended).** `check` returns a report and never raises provided its
base64 fields decode and its keys load: `hash_T` and `sig_seller` present and
decodable, the seller key a well-formed Ed25519 public key, the buyer phase
well-formed (`sig_buyer` absent/falsy, or no buyer key supplied, or a
decodable signature with a well-formed key), and every share record that has
an available public key carrying a decodable `sig_share`. Under those
conditions the structural anomalies of the share phase — no
`share_public_keys`, record without `from_company`, company with no known
public key — surface only as `valid=false` entries in the report, in order.
(Without the decodability conditions `check` can raise, as the counterexample
shows.) -/
theorem C2_check_total_amended
    (P : PDoc) (sp : Bytes) (bp : Option Bytes) (recs : Option (List SRec))
    (pks : Option (List (String × Bytes)))
    (h₁ : wireDecodable P.env.hash_T = true)
    (h₂ : wireDecodable P.env.sig_seller = true)
    (h₃ : pubOk sp = true)
    (h₄ : buyerWF P.env.sig_buyer bp = true)
    (h₅ : ∀ r ∈ recs.getD [], recCheckSafe pks r = true) :
    ∃ rep : Report, check P sp bp recs pks = .ok rep ∧
      List.Forall₂ (fun (r : SRec) (e : ShareEntry) =>
        pksFor pks r = none → e.valid = false) (recs.getD []) rep.shares := by
  obtain ⟨hb, hhb⟩ : ∃ b, P.env.hash_T = some (.b64 b) := by
    cases hh : P.env.hash_T with
    | none => rw [hh] at h₁; exact absurd h₁ (by simp [wireDecodable])
    | some w =>
        cases w with
        | b64 b => exact ⟨b, rfl⟩
        | badStr s => rw [hh] at h₁; exact absurd h₁ (by simp [wireDecodable])
  obtain ⟨sb, hhs⟩ : ∃ b, P.env.sig_seller = some (.b64 b) := by
    cases hh : P.env.sig_seller with
    | none => rw [hh] at h₂; exact absurd h₂ (by simp [wireDecodable])
    | some w =>
        cases w with
        | b64 b => exact ⟨b, rfl⟩
        | badStr s => rw [hh] at h₂; exact absurd h₂ (by simp [wireDecodable])
  obtain ⟨k, hks⟩ : ∃ k, sp = .sigPub k := by
    cases sp <;> simp_all [pubOk]
  subst hks
  obtain ⟨vb, hvb⟩ := buyerSigCheck_safe hb P.env.sig_buyer bp h₄
  obtain ⟨es, hes, hf⟩ := sharesCheck_safe P recs pks h₅
  simp only [check, fieldB64, hhb, hhs, crypto.b64d, crypto.verify, hvb, hes,
    Except.bind, Bind.bind, Except.pure, Pure.pure]
  exact ⟨_, rfl, hf⟩

theorem C2_witness :
    wireDecodable ({ env := envC2 } : PDoc).env.hash_T = true
    ∧ wireDecodable ({ env := envC2 } : PDoc).env.sig_seller = true
    ∧ pubOk (.sigPub 0) = true
    ∧ buyerWF ({ env := envC2 } : PDoc).env.sig_buyer none = true
    ∧ (∀ r ∈ (some [({ from_company := some "unknown" } : SRec)] :
          Option (List SRec)).getD [],
        recCheckSafe (some [("c", Bytes.sigPub 5)]) r = true)
    ∧ ∃ rep : Report,
        check { env := envC2 } (.sigPub 0) none
            (some [{ from_company := some "unknown" }])
            (some [("c", .sigPub 5)]) = .ok rep
        ∧ List.Forall₂ (fun (r : SRec) (e : ShareEntry) =>
            pksFor (some [("c", Bytes.sigPub 5)]) r = none → e.valid = false)
            ((some [({ from_company := some "unknown" } : SRec)] :
              Option (List SRec)).getD []) rep.shares :=
  ⟨by decide, by decide, by decide, by decide, by decide,
   C2_check_total_amended { env := envC2 } (.sigPub 0) none
     (some [{ from_company := some "unknown" }]) (some [("c", .sigPub 5)])
     (by decide) (by decide) (by decide) (by decide) (by decide)⟩

theorem dictGet_insert_self (l : List (String × α)) (k : String) (v : α) :
    dictGet (dictInsert l k v) k = some v := by
  induction l with
  | nil => simp [dictInsert, dictGet]
  | cons p rest ih =>
      obtain ⟨k₀, v₀⟩ := p
      by_cases h : k₀ = k <;> simp [dictInsert, dictGet, h, ih]

theorem dictGet_insert_ne (l : List (String × α)) (k k₂ : String) (v : α)
    (h : k ≠ k₂) : dictGet (dictInsert l k v) k₂ = dictGet l k₂ := by
  induction l with
  | nil => simp [dictInsert, dictGet, h]
  | cons p rest ih =>
      obtain ⟨k₀, v₀⟩ := p
      by_cases h₀ : k₀ = k
      · subst h₀
        simp [dictInsert, dictGet, h]
      · simp [dictInsert, dictGet, h₀, ih]

/-- The envelope `_protect_envelope` builds for honest parties, with every
draw written out: symmetric key at entropy path `ρ ++ [0]`, AEAD nonce at
`ρ ++ [1]`, seller/buyer wrap randomness at `ρ ++ [2]` / `ρ ++ [3]`. -/
def honestEnvelope (payload : Bytes) (n₁ : Option String) (sid₁ eid₁ : Nat)
    (n₂ : Option String) (eid₂ : Nat) (tx : String)
    (me : List (String × Json)) (ρ : List Nat) (now : String) : Env :=
  { tx_id := some tx
    ciphertext := some (.b64 (.gcmCt (freshRand (ρ ++ [0])) (freshRand (ρ ++ [1]))
      payload (some (.hash payload))))
    tag := some (.b64 (.gcmTag (freshRand (ρ ++ [0])) (freshRand (ρ ++ [1]))
      payload (some (.hash payload))))
    nonce := some (.b64 (freshRand (ρ ++ [1])))
    ek_map := pyDict2 (n₁.getD "seller")
                (.b64 (.wrapped eid₁ (freshRand (ρ ++ [0])) (encL (ρ ++ [2]))))
                (n₂.getD "buyer")
                (.b64 (.wrapped eid₂ (freshRand (ρ ++ [0])) (encL (ρ ++ [3]))))
    hash_T := some (.b64 (.hash payload))
    sig_seller := some (.b64 (.sig sid₁ (.hash payload)))
    sig_buyer := none
    created_at := some now
    meta := dictUpdate metaBase me }

theorem _protect_envelope_honest (payload : Bytes) (n₁ n₂ : Option String)
    (sid₁ eid₁ sid₂ eid₂ : Nat) (tx now : String) (me : List (String × Json))
    (ρ : List Nat) :
    _protect_envelope payload (honestKeys n₁ sid₁ eid₁)
        (honestKeys n₂ sid₂ eid₂) tx me ρ now
      = .ok (honestEnvelope payload n₁ sid₁ eid₁ n₂ eid₂ tx me ρ now) := rfl

theorem buildLayers_preserves (fs : List (String × Json))
    (S B : Keys) (tx now : String) (ρ : List Nat) (k : String) :
    ∀ (ls : List (String × List String)) (i : Nat) (acc out : List (String × Env)),
      buildLayers (.obj fs) S B tx now ρ ls i acc = .ok out →
      (∀ p ∈ ls, p.1 ≠ k) →
      dictGet out k = dictGet acc k := by
  intro ls
  induction ls with
  | nil =>
      intro i acc out hout _
      simp only [buildLayers] at hout
      cases hout
      rfl
  | cons hd rest ih =>
      obtain ⟨sec, flds⟩ := hd
      intro i acc out hout hk
      simp only [buildLayers, Except.bind, Bind.bind] at hout
      cases hsl : _slice_document (.obj fs) flds with
      | error e => simp only [hsl] at hout; exact absurd hout (by simp)
      | ok sl =>
          simp only [hsl] at hout
          cases henv : _protect_envelope (_canonical_bytes sl) S B tx
              [("section", .str sec), ("fields", .arr (flds.map Json.str))]
              (ρ ++ [i + 1]) now with
          | error e => simp only [henv] at hout; exact absurd hout (by simp)
          | ok env =>
              simp only [henv] at hout
              have := ih (i + 1) (dictInsert acc sec env) out hout
                (fun p hp => hk p (by simp [hp]))
              rw [this, dictGet_insert_ne]
              exact hk (sec, flds) (by simp)

theorem buildLayers_spec (fs : List (String × Json)) (n₁ n₂ : Option String)
    (sid₁ eid₁ sid₂ eid₂ : Nat) (tx now : String) (ρ : List Nat) :
    ∀ (ls : List (String × List String)) (i : Nat) (acc out : List (String × Env)),
      buildLayers (.obj fs) (honestKeys n₁ sid₁ eid₁) (honestKeys n₂ sid₂ eid₂)
          tx now ρ ls i acc = .ok out →
      (ls.map Prod.fst).Nodup →
      ∀ j (hj : j < ls.length),
        ∃ sl, _slice_document (.obj fs) (ls.get ⟨j, hj⟩).2 = .ok sl ∧
          dictGet out (ls.get ⟨j, hj⟩).1
            = some (honestEnvelope (_canonical_bytes sl) n₁ sid₁ eid₁ n₂ eid₂ tx
                [("section", .str (ls.get ⟨j, hj⟩).1),
                 ("fields", .arr ((ls.get ⟨j, hj⟩).2.map Json.str))]
                (ρ ++ [i + j + 1]) now) := by
  intro ls
  induction ls with
  | nil =>
      intro i acc out _ _ j hj
      exact absurd hj (by simp)
  | cons hd rest ih =>
      obtain ⟨sec, flds⟩ := hd
      intro i acc out hout hnd j hj
      simp only [buildLayers, Except.bind, Bind.bind] at hout
      cases hsl : _slice_document (.obj fs) flds with
      | error e => simp only [hsl] at hout; exact absurd hout (by simp)
      | ok sl =>
          simp only [hsl, _protect_envelope_honest] at hout
          cases j with
          | zero =>
              have hknd : ∀ p ∈ rest, p.1 ≠ sec := by
                intro p hp hps
                simp only [List.map_cons, List.nodup_cons] at hnd
                exact hnd.1 (hps ▸ List.mem_map_of_mem Prod.fst hp)
              have hpres := buildLayers_preserves fs (honestKeys n₁ sid₁ eid₁)
                (honestKeys n₂ sid₂ eid₂) tx now ρ sec rest (i + 1) _ out hout hknd
              refine ⟨sl, hsl, ?_⟩
              simp only [List.get]
              rw [hpres, dictGet_insert_self]
          | succ j₀ =>
              have hj₀ : j₀ < rest.length := by simpa using hj
              obtain ⟨sl₂, hsl₂, hget⟩ := ih (i + 1) _ out hout
                (by simpa using hnd.of_cons) j₀ hj₀
              refine ⟨sl₂, by simpa using hsl₂, ?_⟩
              have harith : i + 1 + j₀ + 1 = i + (j₀ + 1) + 1 := by omega
              rw [← harith]
              simpa using hget

theorem protect_obj_honest (fs : List (String × Json)) (n₁ n₂ : Option String)
    (sid₁ eid₁ sid₂ eid₂ : Nat) (ρ : List Nat) (now : String) :
    protect (.obj fs) (honestKeys n₁ sid₁ eid₁) (honestKeys n₂ sid₂ eid₂) ρ now
      = .ok { env := honestEnvelope (_canonical_bytes (.obj fs)) n₁ sid₁ eid₁
                n₂ eid₂
                (match dictGet fs "id" with
                 | some v => pyStr v
                 | none => uuidHex (ρ ++ [0])) [] (ρ ++ [1]) now
              layers := none } := rfl

theorem dictGet_meta_section (x y : Json) :
    dictGet (dictUpdate metaBase [("section", x), ("fields", y)]) "section"
      = some x := by
  simp [dictUpdate, metaBase, dictInsert, dictGet]

theorem dictGet_meta_fields (x y : Json) :
    dictGet (dictUpdate metaBase [("section", x), ("fields", y)]) "fields"
      = some y := by
  simp [dictUpdate, metaBase, dictInsert, dictGet]

/-- **C6.** For every successful
`P = protect_with_layers(D, S, B, layers)` with honest parties and every
section of `layers` (a dict, so its keys are distinct): the sub-envelope at
that section exists, its `tx_id` equals the parent's, `meta.section` is the
section name, `meta.fields` is the requested field list in its given order,
`hash_T` is the SHA-256 of the canonical bytes of the field slice
`{f: D[f] for f in fields}`, the slice is encrypted under the layer's own
symmetric key (the draw at entropy path `ρ ++ [j+1, 0]`) wrapped for seller
and buyer, and that key is distinct from every other layer's key and from the
parent envelope's key (the draw at `ρ ++ [0, 1, 0]`, pinned by the parent
ciphertext conjunct). -/
theorem C6_layer_invariants
    (fs : List (String × Json)) (ls : List (String × List String))
    (n₁ n₂ : Option String) (sid₁ eid₁ sid₂ eid₂ : Nat) (ρ : List Nat)
    (now : String) (P : PDoc)
    (hnd : (ls.map Prod.fst).Nodup)
    (hP : protect_with_layers (.obj fs) (honestKeys n₁ sid₁ eid₁)
            (honestKeys n₂ sid₂ eid₂) (some ls) ρ now = .ok P) :
    (P.env.hash_T = some (crypto.b64e (crypto.hash_bytes (_canonical_bytes (.obj fs))))
     ∧ P.env.ciphertext = some (crypto.b64e (.gcmCt (freshRand (ρ ++ [0, 1, 0]))
         (freshRand (ρ ++ [0, 1, 1])) (_canonical_bytes (.obj fs))
         (some (crypto.hash_bytes (_canonical_bytes (.obj fs)))))))
    ∧ ∀ j (hj : j < ls.length),
        ∃ sl, _slice_document (.obj fs) (ls.get ⟨j, hj⟩).2 = .ok sl ∧
        ∃ e, dictGet (P.layers.getD []) (ls.get ⟨j, hj⟩).1 = some e ∧
          e.tx_id = P.env.tx_id
          ∧ dictGet e.meta "section" = some (.str (ls.get ⟨j, hj⟩).1)
          ∧ dictGet e.meta "fields" = some (.arr ((ls.get ⟨j, hj⟩).2.map Json.str))
          ∧ e.hash_T = some (crypto.b64e (crypto.hash_bytes (_canonical_bytes sl)))
          ∧ e.ciphertext = some (crypto.b64e (.gcmCt (freshRand (ρ ++ [j + 1, 0]))
              (freshRand (ρ ++ [j + 1, 1])) (_canonical_bytes sl)
              (some (crypto.hash_bytes (_canonical_bytes sl)))))
          ∧ e.ek_map = pyDict2 (n₁.getD "seller")
              (crypto.b64e (.wrapped eid₁ (freshRand (ρ ++ [j + 1, 0]))
                (encL (ρ ++ [j + 1, 2]))))
              (n₂.getD "buyer")
              (crypto.b64e (.wrapped eid₂ (freshRand (ρ ++ [j + 1, 0]))
                (encL (ρ ++ [j + 1, 3]))))
          ∧ freshRand (ρ ++ [j + 1, 0]) ≠ freshRand (ρ ++ [0, 1, 0])
          ∧ ∀ i (hi : i < ls.length), i ≠ j →
              freshRand (ρ ++ [j + 1, 0]) ≠ freshRand (ρ ++ [i + 1, 0]) := by
  simp only [protect_with_layers, protect_obj_honest, honestEnvelope,
    Except.bind, Bind.bind] at hP
  by_cases hls : ls = []
  · subst hls
    simp only [if_true, eq_self_iff_true, ite_true] at hP
    cases hP
    constructor
    · constructor <;>
        simp [honestEnvelope, crypto.b64e, crypto.hash_bytes, freshRand,
          List.append_assoc]
    · intro j hj
      exact absurd hj (by simp)
  · simp only [hls, if_false, ite_false] at hP
    cases hbl : buildLayers (.obj fs) (honestKeys n₁ sid₁ eid₁)
        (honestKeys n₂ sid₂ eid₂)
        (match dictGet fs "id" with
         | some v => pyStr v
         | none => uuidHex (ρ ++ [0] ++ [0])) now ρ ls 0 [] with
    | error e => rw [hbl] at hP; exact absurd hP (by simp)
    | ok out =>
        rw [hbl] at hP
        simp only [Except.ok.injEq] at hP
        subst hP
        constructor
        · constructor <;>
            simp [honestEnvelope, crypto.b64e, crypto.hash_bytes, freshRand,
              List.append_assoc]
        · intro j hj
          obtain ⟨sl, hsl, hget⟩ := buildLayers_spec fs n₁ n₂ sid₁ eid₁ sid₂ eid₂
            _ now ρ ls 0 [] out hbl hnd j hj
          have hget2 : dictGet ((some out : Option (List (String × Env))).getD [])
              (ls.get ⟨j, hj⟩).1
              = some (honestEnvelope (_canonical_bytes sl) n₁ sid₁ eid₁ n₂ eid₂
                  (match dictGet fs "id" with
                   | some v => pyStr v
                   | none => uuidHex (ρ ++ [0] ++ [0]))
                  [("section", .str (ls.get ⟨j, hj⟩).1),
                   ("fields", .arr ((ls.get ⟨j, hj⟩).2.map Json.str))]
                  (ρ ++ [j + 1]) now) := by
            simpa using hget
          refine ⟨sl, hsl, _, hget2, rfl, ?_, ?_, rfl, ?_, ?_, ?_, ?_⟩
          · simpa [honestEnvelope] using dictGet_meta_section
              (Json.str (ls.get ⟨j, hj⟩).1)
              (Json.arr ((ls.get ⟨j, hj⟩).2.map Json.str))
          · simpa [honestEnvelope] using dictGet_meta_fields
              (Json.str (ls.get ⟨j, hj⟩).1)
              (Json.arr ((ls.get ⟨j, hj⟩).2.map Json.str))
          · simp [honestEnvelope, crypto.b64e, crypto.hash_bytes, freshRand,
              List.append_assoc]
          · simp [honestEnvelope, crypto.b64e, freshRand, List.append_assoc]
          · intro hcontra
            have := encL_injective (Bytes.rand.inj hcontra)
            have h2 := List.append_cancel_left this
            simp at h2
          · intro i hi hij hcontra
            have := encL_injective (Bytes.rand.inj hcontra)
            have h2 := List.append_cancel_left this
            simp at h2
            omega

/-- The concrete layered envelope used by C6's witness. -/
def P6w : PDoc :=
  match protect_with_layers (.obj [("a", .num 1)]) (honestKeys (some "seller") 0 0)
      (honestKeys (some "buyer") 1 1) (some [("s", ["a"])]) [] "t" with
  | .ok p => p
  | .error _ => { env := {} }

theorem C6_witness :
    ((([("s", ["a"])] : List (String × List String)).map Prod.fst).Nodup)
    ∧ (protect_with_layers (.obj [("a", .num 1)]) (honestKeys (some "seller") 0 0)
        (honestKeys (some "buyer") 1 1) (some [("s", ["a"])]) [] "t" = .ok P6w)
    ∧ ((P6w.env.hash_T
          = some (crypto.b64e (crypto.hash_bytes (_canonical_bytes (.obj [("a", .num 1)]))))
        ∧ P6w.env.ciphertext
          = some (crypto.b64e (.gcmCt (freshRand ([] ++ [0, 1, 0]))
              (freshRand ([] ++ [0, 1, 1])) (_canonical_bytes (.obj [("a", .num 1)]))
              (some (crypto.hash_bytes (_canonical_bytes (.obj [("a", .num 1)])))))))
       ∧ ∀ j (hj : j < ([("s", ["a"])] : List (String × List String)).length),
          ∃ sl, _slice_document (.obj [("a", .num 1)])
              (([("s", ["a"])] : List (String × List String)).get ⟨j, hj⟩).2 = .ok sl ∧
          ∃ e, dictGet (P6w.layers.getD [])
              (([("s", ["a"])] : List (String × List String)).get ⟨j, hj⟩).1 = some e ∧
            e.tx_id = P6w.env.tx_id
            ∧ dictGet e.meta "section"
              = some (.str (([("s", ["a"])] : List (String × List String)).get ⟨j, hj⟩).1)
            ∧ dictGet e.meta "fields"
              = some (.arr ((([("s", ["a"])] : List (String × List String)).get ⟨j, hj⟩).2.map Json.str))
            ∧ e.hash_T = some (crypto.b64e (crypto.hash_bytes (_canonical_bytes sl)))
            ∧ e.ciphertext = some (crypto.b64e (.gcmCt (freshRand ([] ++ [j + 1, 0]))
                (freshRand ([] ++ [j + 1, 1])) (_canonical_bytes sl)
                (some (crypto.hash_bytes (_canonical_bytes sl)))))
            ∧ e.ek_map = pyDict2 ((some "seller" : Option String).getD "seller")
                (crypto.b64e (.wrapped 0 (freshRand ([] ++ [j + 1, 0]))
                  (encL ([] ++ [j + 1, 2]))))
                ((some "buyer" : Option String).getD "buyer")
                (crypto.b64e (.wrapped 1 (freshRand ([] ++ [j + 1, 0]))
                  (encL ([] ++ [j + 1, 3]))))
            ∧ freshRand ([] ++ [j + 1, 0]) ≠ freshRand ([] ++ [0, 1, 0])
            ∧ ∀ i (hi : i < ([("s", ["a"])] : List (String × List String)).length),
                i ≠ j → freshRand ([] ++ [j + 1, 0]) ≠ freshRand ([] ++ [i + 1, 0])) :=
  ⟨by decide, by decide,
   C6_layer_invariants [("a", .num 1)] [("s", ["a"])] (some "seller") (some "buyer")
     0 0 1 1 [] "t" P6w (by decide) (by decide)⟩
